import Mathlib

/-!
Verification of the agentic orchestration core of the
`gpt-oss-function-calling` repository, shallowly embedded in Lean.

The embedding follows the Python source:
* `src/core/chat_client.py` — `ChatClient.chat`, `_send_stream_request`,
  `_process_tool_calls`, `_execute_function`, `_create_error_message`;
* `src/core/subtask_executor.py` — `SubTaskExecutor.execute`;
* `src/tools/decorator.py` — `_extract_param_description`,
  `get_tools_by_groups`;
* `src/tools/implementations.py` — `delegate_task`.

Modelling conventions:
* Python dict-shaped messages become structures; an absent key and a
  `None` value are both modelled by `Option.none`; an absent `tool_calls`
  key and an empty list both become `[]` (the code only ever tests the
  key together with truthiness).
* A Python exception is `Except.error` with the exception text; a normal
  return is `Except.ok`.
* The HTTP transport is an oracle `Nat → Option Message` giving, per
  iteration, either a decoded assistant message or `none` (transport
  failure, or a response without usable `choices` — both make `chat`
  return `None` in the source).
* `json.loads` of a tool-call argument string is an oracle
  `String → Option FuncArgs`; `none` models `json.JSONDecodeError`.
* Registered callables are `FuncArgs → Except String String`
  (`.ok` = the `str()` of the returned value, `.error` = a raised
  exception).
-/

namespace GptOss

/-- One tool call inside an assistant message
(`tool_call["id"]`, `tool_call["function"]["name"]`,
`tool_call["function"]["arguments"]`); `id = none` models a record
without an `"id"` key. -/
structure ToolCall where
  id : Option String := none
  function_name : String := ""
  arguments : String := ""
deriving DecidableEq, Inhabited

/-- One conversation message, flattening the dict shape used by
`chat_client.py`: `role`, optional `content`, optional
`reasoning_content`, optional `tool_calls` (absent key and empty list
are identified), and for tool-role messages `tool_call_id` and `name`. -/
structure Message where
  role : String
  content : Option String := none
  reasoning_content : Option String := none
  tool_calls : List ToolCall := []
  tool_call_id : Option String := none
  name : Option String := none
deriving DecidableEq, Inhabited

/-! ### Stream decoder (`ChatClient._send_stream_request`, lines 168-258)

A decoded SSE frame (`chunk["choices"][0].get("delta", {})`) carries an
optional `reasoning_content` fragment, an optional `content` fragment,
and an optional list of indexed tool-call fragments.  Frames that fail
JSON decoding are skipped by the source and are not represented here;
the `[DONE]` marker simply ends the frame list. -/

/-- One entry of `delta["tool_calls"]`.  `index` models
`tool_call_delta.get("index", 0)` (an absent index is 0 already at
construction); the other three fields are present-or-absent keys. -/
structure ToolCallDelta where
  index : Nat := 0
  id : Option String := none
  function_name : Option String := none
  arguments : Option String := none
deriving DecidableEq, Inhabited

/-- One decoded stream frame (`delta`). `tool_calls = none` models an
absent `"tool_calls"` key (the source checks only key presence there). -/
structure StreamDelta where
  reasoning_content : Option String := none
  content : Option String := none
  tool_calls : Option (List ToolCallDelta) := none
deriving DecidableEq, Inhabited

/-- Accumulator of the stream loop: `full_content`,
`full_reasoning_content`, `tool_calls_data`. -/
structure StreamState where
  full_content : String
  full_reasoning_content : String
  tool_calls_data : List ToolCall
deriving DecidableEq, Inhabited

/-- The fresh in-progress tool call the source appends while growing
`tool_calls_data`: `\x7b"id": "", "type": "function", "function":
\x7b"name": "", "arguments": ""\x7d\x7d`.  The `id` key is present (as the
empty string), hence `some ""`. -/
def emptyStreamToolCall : ToolCall :=
  { id := some "", function_name := "", arguments := "" }

/-- `while len(tool_calls_data) <= index: tool_calls_data.append(...)`,
written in closed form: pad with empty calls up to length `index + 1`. -/
def ensureIndex (data : List ToolCall) (index : Nat) : List ToolCall :=
  data ++ List.replicate (index + 1 - data.length) emptyStreamToolCall

/-- Apply one `tool_call_delta`: grow the list, then replace `id` if
present, replace `function.name` if present, append `function.arguments`
if present. -/
def applyToolCallDelta (data : List ToolCall) (d : ToolCallDelta) : List ToolCall :=
  let grown := ensureIndex data d.index
  let tc := grown.getD d.index emptyStreamToolCall
  let tc := match d.id with
    | some v => { tc with id := some v }
    | none => tc
  let tc := match d.function_name with
    | some v => { tc with function_name := v }
    | none => tc
  let tc := match d.arguments with
    | some v => { tc with arguments := tc.arguments ++ v }
    | none => tc
  grown.set d.index tc

/-- Fold one frame into the accumulator.  Content and reasoning
fragments are appended only when the key is present and the value is
truthy (non-empty); tool-call fragments are processed whenever the key
is present. -/
def applyStreamDelta (st : StreamState) (d : StreamDelta) : StreamState :=
  let st1 :=
    match d.reasoning_content with
    | some r =>
        if r = "" then st
        else { st with full_reasoning_content := st.full_reasoning_content ++ r }
    | none => st
  let st2 :=
    match d.content with
    | some c =>
        if c = "" then st1
        else { st1 with full_content := st1.full_content ++ c }
    | none => st1
  match d.tool_calls with
  | some ds => { st2 with tool_calls_data := ds.foldl applyToolCallDelta st2.tool_calls_data }
  | none => st2

/-- `full_content = ""`, `full_reasoning_content = ""`,
`tool_calls_data = []`. -/
def initialStreamState : StreamState := ⟨"", "", []⟩

/-- The whole accumulation loop over the decoded frames. -/
def decodeStream (frames : List StreamDelta) : StreamState :=
  frames.foldl applyStreamDelta initialStreamState

/-- Build the final assistant message: `content` is always present
(initialised to `""`), `reasoning_content` only when non-empty,
`tool_calls` only when non-empty (identified with `[]` here). -/
def buildStreamMessage (st : StreamState) : Message :=
  { role := "assistant"
    content := some st.full_content
    reasoning_content :=
      if st.full_reasoning_content = "" then none else some st.full_reasoning_content
    tool_calls := st.tool_calls_data }

/-- `_send_stream_request`, restricted to its pure decoding concern:
the reconstructed assistant message of a frame sequence. -/
def send_stream_request (frames : List StreamDelta) : Message :=
  buildStreamMessage (decodeStream frames)

/-- The content fragment one frame contributes (`""` when the key is
absent or the value empty). -/
def contentFrag (d : StreamDelta) : String :=
  match d.content with
  | some c => if c = "" then "" else c
  | none => ""

/-- The reasoning fragment one frame contributes. -/
def reasoningFrag (d : StreamDelta) : String :=
  match d.reasoning_content with
  | some r => if r = "" then "" else r
  | none => ""

/-- Concatenation of the content fragments of a frame list. -/
def contentConcat : List StreamDelta → String
  | [] => ""
  | d :: rest => contentFrag d ++ contentConcat rest

/-- Concatenation of the reasoning fragments of a frame list. -/
def reasoningConcat : List StreamDelta → String
  | [] => ""
  | d :: rest => reasoningFrag d ++ reasoningConcat rest

/-- All tool-call fragments of a frame list, in arrival order. -/
def toolDeltas (frames : List StreamDelta) : List ToolCallDelta :=
  frames.foldr (fun d acc => (d.tool_calls.getD []) ++ acc) []

/-- Concatenation of the `id` fragments addressed to index `i`. -/
def idConcatAt (frames : List StreamDelta) (i : Nat) : String :=
  String.join ((toolDeltas frames).filterMap fun d =>
    if d.index = i then d.id else none)

/-- Concatenation of the `function.name` fragments addressed to index `i`. -/
def nameConcatAt (frames : List StreamDelta) (i : Nat) : String :=
  String.join ((toolDeltas frames).filterMap fun d =>
    if d.index = i then d.function_name else none)

/-- Concatenation of the `function.arguments` fragments addressed to index `i`. -/
def argsConcatAt (frames : List StreamDelta) (i : Nat) : String :=
  String.join ((toolDeltas frames).filterMap fun d =>
    if d.index = i then d.arguments else none)

/-- A frame carrying exactly one arguments fragment for index `i`. -/
def argFrame (i : Nat) (s : String) : StreamDelta :=
  { tool_calls := some [{ index := i, arguments := some s }] }

/-- A frame carrying exactly one name fragment for index `i`. -/
def nameFrame (i : Nat) (s : String) : StreamDelta :=
  { tool_calls := some [{ index := i, function_name := some s }] }

/-! ### Turn orchestrator (`ChatClient.chat` and tool dispatch)

`chat` (lines 59-101): up to `max_iterations` cycles of request /
decode / dispatch.  The transport, the JSON decoding of a whole
response, and `_extract_message` are collapsed into an oracle
`Nat → Option Message`: `none` when the request fails or the response
has no usable `choices` entry (both make `chat` return `None`);
`some m` for the extracted assistant message. -/

/-- A parsed tool-call argument object (`json.loads` result), modelled
as a finite key/value map with string-rendered values. -/
abbrev FuncArgs := List (String × String)

/-- `AVAILABLE_FUNCTIONS`: name → callable.  A callable either returns a
value whose `str()` is the `.ok` payload, or raises (`.error` with the
exception text). -/
abbrev Registry := List (String × (FuncArgs → Except String String))

/-- `json.loads` on an argument string: `none` models
`json.JSONDecodeError`. -/
abbrev ArgParser := String → Option FuncArgs

/-- `ChatClient._create_error_message`: a tool-role message whose content
is `json.dumps(\x7b"error": error\x7d)` (the exact JSON character escaping
of `json.dumps` is not modelled; no claim inspects it). -/
def create_error_message (tool_call_id function_name error : String) : Message :=
  { role := "tool"
    tool_call_id := some tool_call_id
    name := some function_name
    content := some ("\x7b\"error\": \"" ++ error ++ "\"\x7d") }

/-- `ChatClient._execute_function`: look the name up in
`AVAILABLE_FUNCTIONS`; invoke the callable (it may raise — the source
has no handler there, so `.error` propagates); an unknown name yields
the "函数 … 不存在" error message. -/
def execute_function (reg : Registry) (function_name : String)
    (function_args : FuncArgs) (tool_call_id : String) : Except String Message :=
  match reg.lookup function_name with
  | some function_to_call =>
      match function_to_call function_args with
      | Except.ok function_result =>
          Except.ok { role := "tool"
                      tool_call_id := some tool_call_id
                      name := some function_name
                      content := some function_result }
      | Except.error e => Except.error e
  | none =>
      Except.ok (create_error_message tool_call_id function_name
        ("函数 " ++ function_name ++ " 不存在"))

/-- Result of a dispatch batch: the conversation after the appends, and
`raised = some e` when a callable raised mid-batch (the exception then
propagates, the later calls of the batch are never dispatched). -/
structure DispatchResult where
  messages : List Message
  raised : Option String
deriving DecidableEq, Inhabited

/-- `ChatClient._process_tool_calls`: for each call in order, compute
`tool_call_id = tool_call.get("id", "call_" + iteration)`, parse the
arguments (a parse failure appends the 参数格式错误 error message and
continues), execute, append the resulting tool message. -/
def process_tool_calls (reg : Registry) (parse : ArgParser)
    (tool_calls : List ToolCall) (current_messages : List Message)
    (iteration : Nat) : DispatchResult :=
  match tool_calls with
  | [] => ⟨current_messages, none⟩
  | tool_call :: rest =>
      let tool_call_id := tool_call.id.getD ("call_" ++ toString iteration)
      match parse tool_call.arguments with
      | none =>
          process_tool_calls reg parse rest
            (current_messages ++
              [create_error_message tool_call_id tool_call.function_name "参数格式错误"])
            iteration
      | some function_args =>
          match execute_function reg tool_call.function_name function_args tool_call_id with
          | Except.ok tool_message =>
              process_tool_calls reg parse rest
                (current_messages ++ [tool_message]) iteration
          | Except.error e => ⟨current_messages, some e⟩

/-- Which return site of `chat` produced the outcome (instrumentation;
the source returns `Optional[str]` and this tag records the terminal
reached). -/
inductive TerminalKind : Type
  | success : TerminalKind
  | exhausted : TerminalKind
  | failure : TerminalKind
deriving DecidableEq

/-- The outcome of a `chat` run: `result` is the `Optional[str]` the
source returns; `terminal` tags the return site; `messages` is the final
working conversation (the copy); `requests` counts transport requests
sent (instrumentation). -/
structure ChatOutput where
  result : Option String
  terminal : TerminalKind
  messages : List Message
  requests : Nat
deriving DecidableEq

/-- Per-iteration transport oracle. -/
abbrev Oracle := Nat → Option Message

/-- The body of `chat`'s `for iteration in range(max_iterations)` loop.
`remaining` is the number of iterations left, `iteration` the 0-based
index of the current one. -/
def chat_loop (reg : Registry) (parse : ArgParser) (oracle : Oracle)
    (current_messages : List Message) (iteration : Nat) :
    Nat → Except String ChatOutput
  | 0 =>
      -- loop finished: 达到最大迭代次数, return None
      Except.ok ⟨none, TerminalKind.exhausted, current_messages, 0⟩
  | Nat.succ remaining =>
      match oracle iteration with
      | none =>
          -- `if not result: return None` / `if not message: return None`
          Except.ok ⟨none, TerminalKind.failure, current_messages, 1⟩
      | some message =>
          -- `current_messages.append(message)`, then branch on tool calls
          if message.tool_calls = [] then
            match message.content with
            | some c =>
                if c = "" then
                  Except.ok ⟨none, TerminalKind.failure, current_messages ++ [message], 1⟩
                else
                  Except.ok ⟨some c, TerminalKind.success, current_messages ++ [message], 1⟩
            | none =>
                Except.ok ⟨none, TerminalKind.failure, current_messages ++ [message], 1⟩
          else
            match process_tool_calls reg parse message.tool_calls
                (current_messages ++ [message]) iteration with
            | ⟨_, some e⟩ => Except.error e
            | ⟨ms, none⟩ =>
                match chat_loop reg parse oracle ms (iteration + 1) remaining with
                | Except.ok out => Except.ok { out with requests := out.requests + 1 }
                | Except.error e => Except.error e

/-- `ChatClient.chat`: works on a copy of the caller's messages
(`current_messages = messages.copy()`), starting at iteration 0. -/
def chat (reg : Registry) (parse : ArgParser) (oracle : Oracle)
    (messages : List Message) (max_iterations : Nat) : Except String ChatOutput :=
  chat_loop reg parse oracle messages 0 max_iterations

/-- A sample argument parser: every string parses to the empty argument
map except the marker string `"bad"`. -/
def sampleParse : ArgParser := fun s => if s = "bad" then none else some []

/-- A sample registry with one well-behaved callable. -/
def sampleReg : Registry := [("calculate", fun _ => Except.ok "12")]

/-- The tool-call batch used by concrete witnesses: one normal call, one
call naming an unregistered function, one call with unparsable
arguments. -/
def witnessBatch : List ToolCall :=
  [{ id := some "call_a", function_name := "calculate", arguments := "" },
   { id := none, function_name := "missing_fn", arguments := "" },
   { id := some "call_c", function_name := "calculate", arguments := "bad" }]

/-- Two id-less calls in one cycle, for the C10 witness. -/
def idlessBatch : List ToolCall :=
  [{ id := none, function_name := "calculate", arguments := "" },
   { id := none, function_name := "calculate", arguments := "" }]

/-- A transport oracle that always produces an assistant message with a
tool call. -/
def exhOracle : Oracle := fun _ =>
  some { role := "assistant",
         tool_calls := [{ id := some "1", function_name := "calculate",
                          arguments := "" }] }

/-- A transport oracle producing a degenerate assistant message: neither
content nor tool calls. -/
def degenOracle : Oracle := fun _ => some { role := "assistant" }

/-- A transport oracle producing a final text immediately. -/
def successOracle : Oracle := fun _ =>
  some { role := "assistant", content := some "done" }

/-- The output of the concrete successful run used by the C2 witness. -/
def successRunOut : ChatOutput :=
  ⟨some "done", TerminalKind.success,
   [{ role := "assistant", content := some "done" }], 1⟩

/-- A registry with a callable that raises when invoked. -/
def boomReg : Registry := [("boom", fun _ => Except.error "RuntimeError: boom")]

/-- An oracle whose assistant message calls the raising tool. -/
def boomOracle : Oracle := fun _ =>
  some { role := "assistant",
         tool_calls := [{ id := some "x", function_name := "boom",
                          arguments := "" }] }

/-! ### Heap-level view of `chat` (for the frame property C9)

Python message lists are mutable objects; the caller's list and the
run's working list are distinct objects because `chat` starts with
`current_messages = messages.copy()`.  To state that the caller's
object is never written, lists are placed in an explicit store (`Heap`,
a list of message lists addressed by index); `chat_h` allocates a fresh
cell holding the copy and every append of the loop writes only to that
cell. -/

abbrev Heap := List (List Message)

/-- The loop of `chat`, operating on the working cell `workRef` of the
store.  Each assistant message and the whole dispatched batch are
appended to the working list; the pair returned is (the `Optional[str]`
result or a propagating exception, the final store). -/
def chat_loop_h (reg : Registry) (parse : ArgParser) (oracle : Oracle)
    (h : Heap) (workRef : Nat) (iteration : Nat) :
    Nat → (Except String (Option String)) × Heap
  | 0 => (Except.ok none, h)
  | Nat.succ remaining =>
      match oracle iteration with
      | none => (Except.ok none, h)
      | some message =>
          -- current_messages.append(message)
          let h1 := h.set workRef (h.getD workRef [] ++ [message])
          if message.tool_calls = [] then
            match message.content with
            | some c =>
                if c = "" then (Except.ok none, h1) else (Except.ok (some c), h1)
            | none => (Except.ok none, h1)
          else
            match process_tool_calls reg parse message.tool_calls
                (h1.getD workRef []) iteration with
            | ⟨ms, some e⟩ => (Except.error e, h1.set workRef ms)
            | ⟨ms, none⟩ =>
                chat_loop_h reg parse oracle (h1.set workRef ms) workRef
                  (iteration + 1) remaining

/-- `chat` at the store level: `current_messages = messages.copy()`
allocates a fresh cell (index `h.length`) holding a copy of the caller's
list; the loop then works on that cell only. -/
def chat_h (reg : Registry) (parse : ArgParser) (oracle : Oracle)
    (h : Heap) (callerRef : Nat) (max_iterations : Nat) :
    (Except String (Option String)) × Heap :=
  chat_loop_h reg parse oracle (h ++ [h.getD callerRef []]) h.length 0 max_iterations

/-- A one-message parent conversation for the C9 witness. -/
def parentConversation : List Message :=
  [{ role := "user", content := some "请帮我完成以下任务" }]

/-! ### Agent delegation (`SubTaskExecutor.execute`, `delegate_task`)

`subtask_executor.py` lines 95-188.  One agent profile entry of
`agents_config`; fields read with `config.get(key, default)`. -/

/-- An agent profile: `name`, `tool_groups`, `identity`,
`reasoning_effort`, `max_iterations`, each read with a default. -/
structure AgentConfig where
  name : Option String := none
  tool_groups : List String := []
  identity : Option String := none
  reasoning_effort : Option String := none
  max_iterations : Option Nat := none
deriving DecidableEq, Inhabited

/-- The dict `SubTaskExecutor.execute` returns.  `result = some v` means
the `"result"` key is present holding `chat`'s `Optional[str]` value
`v`; for the unknown-agent branch `agent_name` is absent. -/
structure DelegationResult where
  success : Bool
  result : Option (Option String) := none
  error : Option String := none
  agent_type : String
  agent_name : Option String := none
  task_description : String
deriving DecidableEq, Inhabited

/-- The keyword parameters `ChatClient.__init__` accepts
(`chat_client.py` line 16: `api_url`, `model`, `task_name`; there is no
`api_key` parameter and no `**kwargs`). -/
def chatClientInitParams : List String := ["api_url", "model", "task_name"]

/-- Python keyword-call semantics for `ChatClient.__init__`: a call
whose keyword set is not contained in the declared parameters raises
`TypeError`. -/
def chat_client_init (kwargs : List String) : Except String Unit :=
  if kwargs.all (fun k => chatClientInitParams.contains k) then Except.ok ()
  else Except.error "TypeError: ChatClient.__init__ got an unexpected keyword argument"

/-- `SubTaskExecutor.execute`: unknown agent type → typed
`success=False` result listing the known types; otherwise build the
sub-run.  The `ChatClient(...)` construction at lines 147-152 passes
`api_key=self.api_key` and sits OUTSIDE the `try` block that guards
`client.chat`, so the `TypeError` it raises propagates to the caller.
The sub-run's conversation is the single user message holding the task
description; the sub-run uses the same process-wide callable registry. -/
def subtask_execute (agents : List (String × AgentConfig)) (reg : Registry)
    (parse : ArgParser) (oracle : Oracle)
    (agent_type task_description : String) : Except String DelegationResult :=
  match agents.lookup agent_type with
  | none =>
      Except.ok { success := false
                  error := some ("未知的代理类型: " ++ agent_type ++ "。可用的代理: "
                    ++ String.intercalate ", " (agents.map Prod.fst))
                  agent_type := agent_type
                  task_description := task_description }
  | some agent_config =>
      let agent_name := agent_config.name.getD agent_type
      let max_iterations := agent_config.max_iterations.getD 10
      match chat_client_init ["api_url", "model", "task_name", "api_key"] with
      | Except.error e => Except.error e
      | Except.ok _ =>
          -- try: result = client.chat(...) ... except Exception as e: ...
          match chat reg parse oracle
              [{ role := "user", content := some task_description }] max_iterations with
          | Except.ok out =>
              Except.ok { success := true
                          result := some out.result
                          agent_type := agent_type
                          agent_name := some agent_name
                          task_description := task_description }
          | Except.error e =>
              Except.ok { success := false
                          error := some e
                          agent_type := agent_type
                          agent_name := some agent_name
                          task_description := task_description }

/-- Render an `Optional[str]` the way `json.dumps` renders the value of
the `"result"` key (`None` → `null`). -/
def optValueText : Option String → String
  | none => "null"
  | some s => "\"" ++ s ++ "\""

/-- The `delegate_task` tool (`implementations.py` lines 61-100): run
the executor and serialise the outcome; an exception from
`executor.execute` is not caught and propagates further. -/
def delegate_task (agents : List (String × AgentConfig)) (reg : Registry)
    (parse : ArgParser) (oracle : Oracle)
    (agent_type task_description : String) : Except String String :=
  match subtask_execute agents reg parse oracle agent_type task_description with
  | Except.error e => Except.error e
  | Except.ok r =>
      if r.success then
        Except.ok ("\x7b\"status\": \"success\", \"agent\": \""
          ++ (r.agent_name.getD agent_type) ++ "\", \"result\": "
          ++ optValueText (r.result.getD none) ++ ", \"task\": \""
          ++ task_description ++ "\"\x7d")
      else
        Except.ok ("\x7b\"status\": \"error\", \"agent\": \""
          ++ (r.agent_name.getD agent_type) ++ "\", \"error\": "
          ++ optValueText r.error ++ ", \"task\": \""
          ++ task_description ++ "\"\x7d")

/-- The agent table used for the concrete delegation runs. -/
def demoAgents : List (String × AgentConfig) :=
  [("math_agent", { name := some "数学计算代理", tool_groups := ["math"],
                    reasoning_effort := some "low", max_iterations := some 10 })]

/-! ### Tool registry and group resolution (`decorator.py`)

`get_tools_by_groups` (lines 212-235) collects the member tool names of
the requested groups into a Python `set` (union, deduplicated) and then
emits the registered definition of each collected name, skipping
unregistered names.  The name set is modelled as a `Finset`; the
function's output is modelled as the (duplicate-free) set of emitted
tool definitions — the source iterates a Python set, whose enumeration
order is unspecified. -/

/-- The OpenAI-format tool definition built by the `tool` decorator
(`\x7b"type": "function", "function": \x7b name, description,
parameters ... \x7d\x7d`, flattened): parameter name → (JSON type,
description), plus the required-parameter list. -/
structure ToolDefinition where
  name : String
  description : String
  parameters : List (String × String × String)
  required : List String
deriving DecidableEq, Inhabited

/-- `_TOOL_GROUPS`: group name → member tool names. -/
abbrev GroupTable := List (String × List String)

/-- `_TOOLS_REGISTRY`: tool name → definition. -/
abbrev ToolsRegistry := List (String × ToolDefinition)

/-- The `tool_names` set after the first loop of `get_tools_by_groups`:
union of the member lists of every requested group present in the
table. -/
def resolved_tool_names (groups : GroupTable) (group_names : List String) :
    Finset String :=
  group_names.foldl
    (fun acc g =>
      match groups.lookup g with
      | some ts => acc ∪ ts.toFinset
      | none => acc) ∅

/-- `get_tools_by_groups`: the set of definitions of the resolved
names, an unregistered name contributing nothing. -/
def get_tools_by_groups (groups : GroupTable) (registry : ToolsRegistry)
    (group_names : List String) : Finset ToolDefinition :=
  (resolved_tool_names groups group_names).biUnion
    (fun n => (registry.lookup n).toFinset)

/-- A concrete group table for the C6 witness: overlapping groups and a
member (`ghost_tool`) with no registered definition. -/
def demoGroups : GroupTable :=
  [("math", ["calculate_def", "ghost_tool"]),
   ("time", ["time_def", "calculate_def"])]

/-- A concrete definition registry for the C6 witness. -/
def demoRegistry : ToolsRegistry :=
  [("calculate_def", { name := "calculate_def", description := "执行基本的数学运算",
                       parameters := [("operation", "string", "运算类型")],
                       required := ["operation"] }),
   ("time_def", { name := "time_def", description := "获取当前的日期和时间",
                  parameters := [], required := [] })]

/-! ### Docstring parameter-description heuristic
(`decorator.py`, `_extract_param_description`, lines 56-93) -/

/-- `charsPrefix n h`: the char list `n` is a prefix of `h`
(Python `str.startswith`). -/
def charsPrefix : List Char → List Char → Bool
  | [], _ => true
  | _ :: _, [] => false
  | a :: as, b :: bs => a == b && charsPrefix as bs

/-- `charsContains n h`: `n` occurs as a contiguous run in `h`
(Python `n in h`). -/
def charsContains : List Char → List Char → Bool
  | n, [] => charsPrefix n []
  | n, b :: t => charsPrefix n (b :: t) || charsContains n t

/-- Python `needle in hay` on strings. -/
def strContains (hay needle : String) : Bool := charsContains needle.data hay.data

/-- Python `s.startswith(pre)`. -/
def strStartsWith (s pre : String) : Bool := charsPrefix pre.data s.data

/-- `stripped.lower().startswith(('参数:', 'args:', 'parameters:'))`. -/
def isParamsLabel (s : String) : Bool :=
  strStartsWith s.toLower "参数:" || strStartsWith s.toLower "args:"
    || strStartsWith s.toLower "parameters:"

/-- `stripped.lower().startswith(('返回:', 'return:', 'raises:'))`. -/
def isReturnsLabel (s : String) : Bool :=
  strStartsWith s.toLower "返回:" || strStartsWith s.toLower "return:"
    || strStartsWith s.toLower "raises:"

/-- Python `s.split(':', 1)` when `':' in s`: the part before the first
colon and the remainder after it; `none` when the string has no colon. -/
def splitColonOnce : List Char → Option (List Char × List Char)
  | [] => none
  | c :: t =>
      if c = ':' then some ([], t)
      else
        match splitColonOnce t with
        | some (a, b) => some (c :: a, b)
        | none => none

/-- The scanning loop of `_extract_param_description` over the split
lines, carrying the `in_params_section` flag; falling off the end (or
hitting a returns/raises label inside the section) yields the default
`param_name + " 参数"`. -/
def extract_param_go (param_name : String) : List String → Bool → String
  | [], _ => param_name ++ " 参数"
  | line :: rest, in_params =>
      let stripped := line.trim
      if isParamsLabel stripped then extract_param_go param_name rest true
      else if in_params && isReturnsLabel stripped then param_name ++ " 参数"
      else if in_params && strContains stripped param_name then
        match splitColonOnce stripped.data with
        | some (pre, post) =>
            if charsContains param_name.data pre then (String.mk post).trim
            else extract_param_go param_name rest in_params
        | none => extract_param_go param_name rest in_params
      else extract_param_go param_name rest in_params

/-- `_extract_param_description`: `if not docstring: return ""` — an
absent or empty docstring yields the EMPTY string, not the default —
otherwise scan the split lines. -/
def extract_param_description (docstring : Option String) (param_name : String) :
    String :=
  match docstring with
  | none => ""
  | some doc =>
      if doc = "" then "" else extract_param_go param_name (doc.splitOn "\n") false

/-- Spec-side reading of one line of the parameters section: if the line
contains the parameter name and has a colon with the name before it, the
description is the trimmed remainder after the first colon. -/
def specMatchLine (param_name : String) (line : String) : Option String :=
  let stripped := line.trim
  if strContains stripped param_name then
    match splitColonOnce stripped.data with
    | some (pre, post) =>
        if charsContains param_name.data pre then some ((String.mk post).trim)
        else none
    | none => none
  else none

/-- Spec-side parameters section: the lines after the first
参数/args/parameters label, up to the first 返回/return/raises label,
further label lines being skipped. -/
def sectionScan : List String → List String
  | [] => []
  | line :: rest =>
      if isParamsLabel line.trim then sectionScan rest
      else if isReturnsLabel line.trim then []
      else line :: sectionScan rest

/-- The parameters section of a docstring: drop everything up to and
including the first parameters label, then scan. -/
def specParamSection (doc : String) : List String :=
  sectionScan (((doc.splitOn "\n").dropWhile (fun l => !(isParamsLabel l.trim))).drop 1)

/-- Declarative reading of the heuristic, following the amended claim:
with a non-empty docstring, the description of a parameter is the first
per-line match in the parameters section, defaulting to
`param_name + " 参数"` when no line matches; with no (or an empty)
docstring it is the empty string. -/
def spec_param_description (docstring : Option String) (param_name : String) :
    String :=
  match docstring with
  | none => ""
  | some doc =>
      if doc = "" then ""
      else
        match ((specParamSection doc).filterMap (specMatchLine param_name)).head? with
        | some d => d
        | none => param_name ++ " 参数"

/-! ### Auxiliary list/string lemmas -/

theorem strAppendAssoc (a b c : String) : a ++ b ++ c = a ++ (b ++ c) := by
  apply String.ext
  simp [String.data_append]

theorem getD_set_self {α : Type} :
    ∀ (l : List α) (i : Nat) (a d : α), i < l.length → (l.set i a).getD i d = a
  | _ :: _, 0, _, _, _ => rfl
  | _ :: xs, Nat.succ n, a, d, h => getD_set_self xs n a d (Nat.lt_of_succ_lt_succ h)

theorem getD_set_ne {α : Type} :
    ∀ (l : List α) (i j : Nat) (a d : α), i ≠ j → (l.set i a).getD j d = l.getD j d
  | [], _, _, _, _, _ => by simp
  | _ :: _, 0, 0, _, _, h => absurd rfl h
  | _ :: _, 0, Nat.succ _, _, _, _ => rfl
  | _ :: _, Nat.succ _, 0, _, _, _ => rfl
  | _ :: xs, Nat.succ n, Nat.succ m, a, d, h =>
      getD_set_ne xs n m a d (fun he => h (by rw [he]))

theorem getD_append_left {α : Type} :
    ∀ (l t : List α) (r : Nat) (d : α), r < l.length → (l ++ t).getD r d = l.getD r d
  | _ :: _, _, 0, _, _ => rfl
  | _ :: xs, t, Nat.succ n, d, h => getD_append_left xs t n d (Nat.lt_of_succ_lt_succ h)

/-! ### Stream-decoder decomposition -/

theorem applyStreamDelta_eq (st : StreamState) (d : StreamDelta) :
    applyStreamDelta st d =
      ⟨st.full_content ++ contentFrag d,
       st.full_reasoning_content ++ reasoningFrag d,
       (d.tool_calls.getD []).foldl applyToolCallDelta st.tool_calls_data⟩ := by
  cases st
  rcases d with ⟨r, c, t⟩
  cases r <;> cases c <;> cases t <;>
    simp only [applyStreamDelta, contentFrag, reasoningFrag, Option.getD] <;>
    (try split_ifs) <;>
    simp_all [String.append_empty]

theorem toolDeltas_cons (d : StreamDelta) (rest : List StreamDelta) :
    toolDeltas (d :: rest) = d.tool_calls.getD [] ++ toolDeltas rest := rfl

theorem toolDeltas_append (x y : List StreamDelta) :
    toolDeltas (x ++ y) = toolDeltas x ++ toolDeltas y := by
  induction x with
  | nil => rfl
  | cons d rest ih => simp [toolDeltas_cons, ih, List.append_assoc]

theorem contentConcat_append (x y : List StreamDelta) :
    contentConcat (x ++ y) = contentConcat x ++ contentConcat y := by
  induction x with
  | nil => simp [contentConcat, String.empty_append]
  | cons d rest ih => simp [contentConcat, ih, strAppendAssoc]

theorem reasoningConcat_append (x y : List StreamDelta) :
    reasoningConcat (x ++ y) = reasoningConcat x ++ reasoningConcat y := by
  induction x with
  | nil => simp [reasoningConcat, String.empty_append]
  | cons d rest ih => simp [reasoningConcat, ih, strAppendAssoc]

theorem foldl_applyStreamDelta_eq (frames : List StreamDelta) : ∀ st : StreamState,
    frames.foldl applyStreamDelta st =
      ⟨st.full_content ++ contentConcat frames,
       st.full_reasoning_content ++ reasoningConcat frames,
       (toolDeltas frames).foldl applyToolCallDelta st.tool_calls_data⟩ := by
  induction frames with
  | nil =>
      intro st
      cases st
      simp [contentConcat, reasoningConcat, toolDeltas, String.append_empty]
  | cons d rest ih =>
      intro st
      rw [List.foldl_cons, ih, applyStreamDelta_eq]
      simp [contentConcat, reasoningConcat, toolDeltas_cons, strAppendAssoc, List.foldl_append]

theorem decodeStream_eq (frames : List StreamDelta) :
    decodeStream frames =
      ⟨contentConcat frames, reasoningConcat frames,
       (toolDeltas frames).foldl applyToolCallDelta []⟩ := by
  rw [decodeStream, foldl_applyStreamDelta_eq]
  simp [initialStreamState, String.empty_append]

theorem ensureIndex_of_lt (l : List ToolCall) (i : Nat) (h : i < l.length) :
    ensureIndex l i = l := by
  unfold ensureIndex
  rw [Nat.sub_eq_zero_of_le h]
  simp

theorem ensureIndex_length (l : List ToolCall) (i : Nat) :
    i < (ensureIndex l i).length := by
  unfold ensureIndex
  simp only [List.length_append, List.length_replicate]
  omega

/-- Two arguments fragments for the same index compose to the fragment
carrying their concatenation. -/
theorem applyToolCallDelta_arg_split (data : List ToolCall) (i : Nat) (a b : String) :
    applyToolCallDelta (applyToolCallDelta data ⟨i, none, none, some a⟩)
        ⟨i, none, none, some b⟩
      = applyToolCallDelta data ⟨i, none, none, some (a ++ b)⟩ := by
  simp only [applyToolCallDelta]
  have hlen1 : i < (ensureIndex data i).length := ensureIndex_length data i
  set D := ensureIndex data i with hD
  set g := D.getD i emptyStreamToolCall with hg
  have h2 : i < (D.set i
      { id := g.id, function_name := g.function_name,
        arguments := g.arguments ++ a }).length := by
    rw [List.length_set]; exact hlen1
  rw [ensureIndex_of_lt _ _ h2]
  rw [getD_set_self _ _ _ _ hlen1]
  rw [List.set_set]
  congr 1
  simp [strAppendAssoc]

/-- **C5 (amended).**  The final assistant message is determined by the
concatenation of the content fragments, the concatenation of the
reasoning fragments, and the in-order sequence of tool-call fragments:
any two frame splits agreeing on those three decode identically, and an
`arguments` fragment may be split arbitrarily (arguments concatenate).
Fragmentation invariance does NOT extend to splitting `id`/`name`
fragments, which replace instead of appending (see the
counterexample). -/
theorem c5_stream_decoding_invariance :
    (∀ f1 f2 : List StreamDelta,
        contentConcat f1 = contentConcat f2 →
        reasoningConcat f1 = reasoningConcat f2 →
        toolDeltas f1 = toolDeltas f2 →
        send_stream_request f1 = send_stream_request f2)
    ∧ (∀ (pre post : List StreamDelta) (i : Nat) (a b : String),
        send_stream_request (pre ++ argFrame i (a ++ b) :: post)
          = send_stream_request (pre ++ argFrame i a :: argFrame i b :: post)) := by
  constructor
  · intro f1 f2 hc hr ht
    unfold send_stream_request
    rw [decodeStream_eq, decodeStream_eq, hc, hr, ht]
  · intro pre post i a b
    unfold send_stream_request
    rw [decodeStream_eq, decodeStream_eq]
    have hc : contentConcat (pre ++ argFrame i (a ++ b) :: post)
        = contentConcat (pre ++ argFrame i a :: argFrame i b :: post) := by
      simp [contentConcat_append, contentConcat, contentFrag, argFrame,
        String.empty_append]
    have hr : reasoningConcat (pre ++ argFrame i (a ++ b) :: post)
        = reasoningConcat (pre ++ argFrame i a :: argFrame i b :: post) := by
      simp [reasoningConcat_append, reasoningConcat, reasoningFrag, argFrame,
        String.empty_append]
    have ht : (toolDeltas (pre ++ argFrame i (a ++ b) :: post)).foldl applyToolCallDelta []
        = (toolDeltas (pre ++ argFrame i a :: argFrame i b :: post)).foldl
            applyToolCallDelta [] := by
      rw [toolDeltas_append, toolDeltas_append, toolDeltas_cons, toolDeltas_cons,
        toolDeltas_cons]
      simp only [argFrame, Option.getD, List.foldl_append, List.append_assoc,
        List.foldl_cons, List.foldl_nil]
      rw [applyToolCallDelta_arg_split]
    rw [hc, hr, ht]

/-- **C5 (counterexample).**  Two frame sequences whose content,
reasoning and per-index tool-call `id`/`name`/`arguments` fragments all
concatenate to the same totals, but which decode to different final
messages: the name fragments `"a"`, `"b"` concatenate to `"ab"`, yet the
decoder replaces the name, leaving `"b"`. -/
theorem c5_witness :
    send_stream_request
        [{ content := some "he" }, { content := some "llo" }]
      = send_stream_request
        [{ content := some "hell" }, { content := some "o" }] :=
  c5_stream_decoding_invariance.1
    [{ content := some "he" }, { content := some "llo" }]
    [{ content := some "hell" }, { content := some "o" }] rfl rfl rfl

theorem c5_counterexample :
    contentConcat [nameFrame 0 "a", nameFrame 0 "b"] = contentConcat [nameFrame 0 "ab"]
    ∧ reasoningConcat [nameFrame 0 "a", nameFrame 0 "b"]
        = reasoningConcat [nameFrame 0 "ab"]
    ∧ (∀ i : Nat, idConcatAt [nameFrame 0 "a", nameFrame 0 "b"] i
        = idConcatAt [nameFrame 0 "ab"] i)
    ∧ (∀ i : Nat, nameConcatAt [nameFrame 0 "a", nameFrame 0 "b"] i
        = nameConcatAt [nameFrame 0 "ab"] i)
    ∧ (∀ i : Nat, argsConcatAt [nameFrame 0 "a", nameFrame 0 "b"] i
        = argsConcatAt [nameFrame 0 "ab"] i)
    ∧ send_stream_request [nameFrame 0 "a", nameFrame 0 "b"]
        ≠ send_stream_request [nameFrame 0 "ab"] := by
  refine ⟨rfl, rfl, ?_, ?_, ?_, by decide⟩
  · intro i; cases i <;> rfl
  · intro i; cases i <;> rfl
  · intro i; cases i <;> rfl

/-! ### Dispatch lemmas -/

theorem lookup_mem {β : Type} :
    ∀ (l : List (String × β)) (k : String) (b : β),
      List.lookup k l = some b → (k, b) ∈ l := by
  intro l
  induction l with
  | nil => intro k b h; simp [List.lookup] at h
  | cons p t ih =>
      intro k b h
      rcases p with ⟨k', b'⟩
      rw [List.lookup] at h
      by_cases hk : k == k'
      · rw [hk] at h
        simp at h
        subst h
        have : k = k' := by simpa using hk
        subst this
        exact List.mem_cons_self _ _
      · rw [Bool.not_eq_true] at hk
        rw [hk] at h
        exact List.mem_cons_of_mem _ (ih k b h)

theorem execute_function_ok_shape (reg : Registry) (nm : String)
    (args : FuncArgs) (tcid : String) (m : Message)
    (h : execute_function reg nm args tcid = Except.ok m) :
    m.role = "tool" ∧ m.tool_call_id = some tcid := by
  unfold execute_function at h
  rcases hl : List.lookup nm reg with _ | f
  · simp only [hl] at h
    simp [create_error_message] at h
    subst h
    exact ⟨rfl, rfl⟩
  · simp only [hl] at h
    rcases hf : f args with e | s <;> simp only [hf] at h
    · simp at h
    · injection h with h'
      subst h'
      exact ⟨rfl, rfl⟩

/-- Shape of a completed dispatch batch: it appends exactly one tool-role
message per tool call, and the `i`-th appended message carries
`tool_call_id = tool_call.get("id", "call_" + iteration)` of the `i`-th
call. -/
theorem process_tool_calls_ok_spec (reg : Registry) (parse : ArgParser) :
    ∀ (tcs : List ToolCall) (cur ms : List Message) (iter : Nat),
      process_tool_calls reg parse tcs cur iter = ⟨ms, none⟩ →
      ∃ results : List Message,
        ms = cur ++ results ∧
        results.length = tcs.length ∧
        ∀ i, i < tcs.length →
          (results.getD i default).role = "tool" ∧
          (results.getD i default).tool_call_id =
            some ((tcs.getD i default).id.getD ("call_" ++ toString iter)) := by
  intro tcs
  induction tcs with
  | nil =>
      intro cur ms iter h
      rw [process_tool_calls] at h
      injection h with h1 _
      exact ⟨[], by rw [h1, List.append_nil], rfl, fun i hi => absurd hi (by simp)⟩
  | cons tc rest ih =>
      intro cur ms iter h
      rw [process_tool_calls] at h
      rcases hp : parse tc.arguments with _ | args
      · simp only [hp] at h
        obtain ⟨results, h1, h2, h3⟩ := ih _ ms iter h
        refine ⟨create_error_message (tc.id.getD ("call_" ++ toString iter))
            tc.function_name "参数格式错误" :: results, ?_, by simpa using h2, ?_⟩
        · rw [h1]; simp
        · intro i hi
          cases i with
          | zero => exact ⟨rfl, rfl⟩
          | succ n =>
              have := h3 n (by simpa using Nat.lt_of_succ_lt_succ hi)
              simpa using this
      · simp only [hp] at h
        rcases he : execute_function reg tc.function_name args
            (tc.id.getD ("call_" ++ toString iter)) with e | m
        · simp only [he] at h
          injection h with _ h2
          exact absurd h2.symm (by simp)
        · simp only [he] at h
          obtain ⟨results, h1, h2, h3⟩ := ih _ ms iter h
          obtain ⟨hrole, hid⟩ := execute_function_ok_shape reg tc.function_name args _ m he
          refine ⟨m :: results, ?_, by simpa using h2, ?_⟩
          · rw [h1]; simp
          · intro i hi
            cases i with
            | zero => exact ⟨hrole, hid⟩
            | succ n =>
                have := h3 n (by simpa using Nat.lt_of_succ_lt_succ hi)
                simpa using this

/-- **C3.**  A completed dispatch batch appends exactly one tool-role
message to the conversation per tool call of the triggering assistant
message — on success, on argument-parse failure and on an unregistered
function name alike — each carrying that call's `tool_call_id`
(defaulted to `call_<iteration>` when the call has no id), and all of
them are in place when `process_tool_calls` returns, i.e. before the
next model request of the loop. -/
theorem c3_one_tool_message_per_call (reg : Registry) (parse : ArgParser)
    (tcs : List ToolCall) (cur ms : List Message) (iter : Nat)
    (h : process_tool_calls reg parse tcs cur iter = ⟨ms, none⟩) :
    ∃ results : List Message,
      ms = cur ++ results ∧
      results.length = tcs.length ∧
      ∀ i, i < tcs.length →
        (results.getD i default).role = "tool" ∧
        (results.getD i default).tool_call_id =
          some ((tcs.getD i default).id.getD ("call_" ++ toString iter)) :=
  process_tool_calls_ok_spec reg parse tcs cur ms iter h

theorem c3_witness :
    ∃ results : List Message,
      (process_tool_calls sampleReg sampleParse witnessBatch [] 0).messages
          = [] ++ results ∧
      results.length = witnessBatch.length ∧
      ∀ i, i < witnessBatch.length →
        (results.getD i default).role = "tool" ∧
        (results.getD i default).tool_call_id =
          some ((witnessBatch.getD i default).id.getD ("call_" ++ toString 0)) :=
  c3_one_tool_message_per_call sampleReg sampleParse witnessBatch []
    (process_tool_calls sampleReg sampleParse witnessBatch [] 0).messages 0 rfl

/-- **C10.**  Two tool calls without an `"id"` field dispatched in the
same cycle both get the synthesised `tool_call_id = "call_<iteration>"`
(0-based iteration), hence identical ids — `tool_call_id` alone does not
correlate request and result in that case. -/
theorem c10_idless_share_cycle_id (reg : Registry) (parse : ArgParser)
    (tcs : List ToolCall) (cur ms : List Message) (iter i j : Nat)
    (h : process_tool_calls reg parse tcs cur iter = ⟨ms, none⟩)
    (hi : i < tcs.length) (hj : j < tcs.length)
    (hni : (tcs.getD i default).id = none)
    (hnj : (tcs.getD j default).id = none) :
    ∃ results : List Message,
      ms = cur ++ results ∧
      (results.getD i default).tool_call_id = some ("call_" ++ toString iter) ∧
      (results.getD j default).tool_call_id = some ("call_" ++ toString iter) ∧
      (results.getD i default).tool_call_id = (results.getD j default).tool_call_id := by
  obtain ⟨results, h1, _, h3⟩ := process_tool_calls_ok_spec reg parse tcs cur ms iter h
  obtain ⟨_, hidi⟩ := h3 i hi
  obtain ⟨_, hidj⟩ := h3 j hj
  rw [hni] at hidi
  rw [hnj] at hidj
  exact ⟨results, h1, hidi, hidj, by rw [hidi, hidj]⟩

/-! ### Chat-loop lemmas and the claims about `chat` -/

theorem process_tool_calls_no_raise (reg : Registry) (parse : ArgParser)
    (htotal : ∀ nm f, (nm, f) ∈ reg → ∀ a, ∃ s, f a = Except.ok s) :
    ∀ (tcs : List ToolCall) (cur : List Message) (iter : Nat),
      (process_tool_calls reg parse tcs cur iter).raised = none := by
  intro tcs
  induction tcs with
  | nil => intro cur iter; rfl
  | cons tc rest ih =>
      intro cur iter
      rw [process_tool_calls]
      rcases hp : parse tc.arguments with _ | args
      · simp only [hp]
        exact ih _ _
      · simp only [hp]
        rcases hl : List.lookup tc.function_name reg with _ | f
        · simp only [execute_function, hl]
          exact ih _ _
        · obtain ⟨s, hs⟩ := htotal _ f (lookup_mem reg _ f hl) args
          simp only [execute_function, hl, hs]
          exact ih _ _

theorem chat_loop_result_iff (reg : Registry) (parse : ArgParser) (oracle : Oracle) :
    ∀ (rem iter : Nat) (cur : List Message) (out : ChatOutput),
      chat_loop reg parse oracle cur iter rem = Except.ok out →
      (out.terminal = TerminalKind.success ↔ out.result ≠ none) := by
  intro rem
  induction rem with
  | zero =>
      intro iter cur out h
      simp only [chat_loop] at h
      injection h with h'
      subst h'
      simp
  | succ rem ih =>
      intro iter cur out h
      simp only [chat_loop] at h
      rcases ho : oracle iter with _ | m
      · simp only [ho] at h
        injection h with h'
        subst h'
        simp
      · simp only [ho] at h
        by_cases htc : m.tool_calls = []
        · rw [if_pos htc] at h
          rcases hc : m.content with _ | c
          · simp only [hc] at h
            injection h with h'
            subst h'
            simp
          · simp only [hc] at h
            by_cases hce : c = ""
            · rw [if_pos hce] at h
              injection h with h'
              subst h'
              simp
            · rw [if_neg hce] at h
              injection h with h'
              subst h'
              simp

        · rw [if_neg htc] at h
          rcases hpc : process_tool_calls reg parse m.tool_calls (cur ++ [m]) iter
            with ⟨ms, r⟩
          simp only [hpc] at h
          cases r with
          | some e => simp at h
          | none =>
              rcases hrec : chat_loop reg parse oracle ms (iter + 1) rem with e | out'
              · simp only [hrec] at h
                simp at h
              · simp only [hrec] at h
                injection h with h'
                subst h'
                simpa using ih (iter + 1) ms out' hrec

theorem chat_loop_no_raise (reg : Registry) (parse : ArgParser) (oracle : Oracle)
    (hnr : ∀ tcs cur iter, (process_tool_calls reg parse tcs cur iter).raised = none) :
    ∀ (rem iter : Nat) (cur : List Message),
      ∃ out, chat_loop reg parse oracle cur iter rem = Except.ok out := by
  intro rem
  induction rem with
  | zero => intro iter cur; exact ⟨_, rfl⟩
  | succ rem ih =>
      intro iter cur
      rcases ho : oracle iter with _ | m
      · simp only [chat_loop, ho]
        exact ⟨_, rfl⟩
      · rcases hc : m.content with _ | c
        · simp only [chat_loop, ho, hc]
          by_cases htc : m.tool_calls = []
          · rw [if_pos htc]
            exact ⟨_, rfl⟩
          · rw [if_neg htc]
            have h1 := hnr m.tool_calls (cur ++ [m]) iter
            have hsplit : process_tool_calls reg parse m.tool_calls (cur ++ [m]) iter
                = ⟨(process_tool_calls reg parse m.tool_calls (cur ++ [m]) iter).messages,
                   none⟩ := by
              rw [← h1]
            obtain ⟨out', hout'⟩ := ih (iter + 1)
              (process_tool_calls reg parse m.tool_calls (cur ++ [m]) iter).messages
            rw [hsplit]
            exact ⟨⟨out'.result, out'.terminal, out'.messages, out'.requests + 1⟩,
              by simp only [hout']⟩
        · simp only [chat_loop, ho, hc]
          by_cases htc : m.tool_calls = []
          · rw [if_pos htc]
            by_cases hce : c = ""
            · rw [if_pos hce]; exact ⟨_, rfl⟩
            · rw [if_neg hce]; exact ⟨_, rfl⟩
          · rw [if_neg htc]
            have h1 := hnr m.tool_calls (cur ++ [m]) iter
            have hsplit : process_tool_calls reg parse m.tool_calls (cur ++ [m]) iter
                = ⟨(process_tool_calls reg parse m.tool_calls (cur ++ [m]) iter).messages,
                   none⟩ := by
              rw [← h1]
            obtain ⟨out', hout'⟩ := ih (iter + 1)
              (process_tool_calls reg parse m.tool_calls (cur ++ [m]) iter).messages
            rw [hsplit]
            exact ⟨⟨out'.result, out'.terminal, out'.messages, out'.requests + 1⟩,
              by simp only [hout']⟩

theorem chat_loop_exhausts (reg : Registry) (parse : ArgParser) (oracle : Oracle)
    (hresp : ∀ i, ∃ m, oracle i = some m ∧ m.tool_calls ≠ [])
    (hnr : ∀ tcs cur iter, (process_tool_calls reg parse tcs cur iter).raised = none) :
    ∀ (rem iter : Nat) (cur : List Message),
      ∃ fin, chat_loop reg parse oracle cur iter rem
          = Except.ok ⟨none, TerminalKind.exhausted, fin, rem⟩ := by
  intro rem
  induction rem with
  | zero => intro iter cur; exact ⟨cur, rfl⟩
  | succ rem ih =>
      intro iter cur
      obtain ⟨m, hm, htc⟩ := hresp iter
      simp only [chat_loop, hm]
      rw [if_neg htc]
      have h1 := hnr m.tool_calls (cur ++ [m]) iter
      rcases hpc : process_tool_calls reg parse m.tool_calls (cur ++ [m]) iter
        with ⟨ms, r⟩
      have hr : r = none := by rw [hpc] at h1; exact h1
      subst hr
      simp only [hpc]
      obtain ⟨fin, hrec⟩ := ih (iter + 1) ms
      rw [hrec]
      exact ⟨fin, rfl⟩

/-- **C2 (amended).**  `chat` surfaces `Success` as `some text` and both
`Exhausted` and `Failure` as `None`: the returned `Optional[str]` is
`some` exactly on the `Success` terminal, so `Exhausted` and `Failure`
are NOT distinguishable from each other in the caller-visible return
value (the original claim's three-way distinction fails, see the
counterexample). -/
theorem c2_success_iff_some (reg : Registry) (parse : ArgParser) (oracle : Oracle)
    (msgs : List Message) (maxIter : Nat) (out : ChatOutput)
    (h : chat reg parse oracle msgs maxIter = Except.ok out) :
    out.terminal = TerminalKind.success ↔ out.result ≠ none :=
  chat_loop_result_iff reg parse oracle maxIter 0 msgs out h

/-- **C2 (counterexample).**  One run reaches the `Exhausted` terminal,
the other the `Failure` terminal, yet `chat` returns the same value
(`None`) for both: the two outcomes are not distinguishable by the
caller, contradicting the claimed typed three-way distinction. -/
theorem c2_counterexample :
    (chat sampleReg sampleParse exhOracle [] 1).map ChatOutput.terminal
        = Except.ok TerminalKind.exhausted
    ∧ (chat sampleReg sampleParse degenOracle [] 1).map ChatOutput.terminal
        = Except.ok TerminalKind.failure
    ∧ (chat sampleReg sampleParse exhOracle [] 1).map ChatOutput.result
        = (chat sampleReg sampleParse degenOracle [] 1).map ChatOutput.result :=
  ⟨rfl, rfl, rfl⟩

theorem c2_witness :
    successRunOut.terminal = TerminalKind.success ↔ successRunOut.result ≠ none :=
  c2_success_iff_some sampleReg sampleParse successOracle [] 3 successRunOut rfl

/-- **C4 (amended).**  When every registered callable returns normally
on every argument map, `chat` never raises: argument-parse failures and
unknown function names are contained as tool-role error messages and
every run ends in one of the typed outcomes.  Without that hypothesis an
exception raised by a callable propagates to the caller (see the
counterexample). -/
theorem c4_no_raise_for_total_tools (reg : Registry) (parse : ArgParser)
    (oracle : Oracle) (msgs : List Message) (maxIter : Nat)
    (htotal : ∀ nm f, (nm, f) ∈ reg → ∀ a, ∃ s, f a = Except.ok s) :
    ∃ out, chat reg parse oracle msgs maxIter = Except.ok out :=
  chat_loop_no_raise reg parse oracle
    (process_tool_calls_no_raise reg parse htotal) maxIter 0 msgs

/-- **C4 (counterexample).**  A registered callable that raises when
invoked makes `chat` itself raise (`_execute_function` has no handler
around the call), so the fault escapes to the caller instead of becoming
a typed outcome. -/
theorem c4_counterexample :
    chat boomReg sampleParse boomOracle [] 5 = Except.error "RuntimeError: boom" :=
  rfl

theorem c4_witness :
    ∃ out, chat sampleReg sampleParse degenOracle [] 4 = Except.ok out :=
  c4_no_raise_for_total_tools sampleReg sampleParse degenOracle [] 4
    (by
      intro nm f hmem a
      simp only [sampleReg, List.mem_singleton, Prod.mk.injEq] at hmem
      obtain ⟨h1, h2⟩ := hmem
      subst h2
      exact ⟨"12", rfl⟩)

/-- **C8.**  If every model response carries tool calls (and the
registered callables return normally, so no exception cuts the loop
short), `chat` performs exactly `max_iterations` request cycles and then
stops with the `Exhausted` outcome: the `requests` count of the run
equals `max_iterations`, so no extra request is made after the budget is
consumed and the loop always terminates. -/
theorem c8_exhausts_in_max_iterations (reg : Registry) (parse : ArgParser)
    (oracle : Oracle) (msgs : List Message) (maxIter : Nat)
    (hpos : 1 ≤ maxIter)
    (hresp : ∀ i, ∃ m, oracle i = some m ∧ m.tool_calls ≠ [])
    (htotal : ∀ nm f, (nm, f) ∈ reg → ∀ a, ∃ s, f a = Except.ok s) :
    ∃ fin, chat reg parse oracle msgs maxIter
        = Except.ok ⟨none, TerminalKind.exhausted, fin, maxIter⟩ :=
  chat_loop_exhausts reg parse oracle hresp
    (process_tool_calls_no_raise reg parse htotal) maxIter 0 msgs

theorem c8_witness :
    ∃ fin, chat sampleReg sampleParse exhOracle [] 2
        = Except.ok ⟨none, TerminalKind.exhausted, fin, 2⟩ :=
  c8_exhausts_in_max_iterations sampleReg sampleParse exhOracle [] 2
    (by decide)
    (fun i => ⟨{ role := "assistant",
                 tool_calls := [{ id := some "1", function_name := "calculate",
                                  arguments := "" }] }, rfl, by decide⟩)
    (by
      intro nm f hmem a
      simp only [sampleReg, List.mem_singleton, Prod.mk.injEq] at hmem
      obtain ⟨h1, h2⟩ := hmem
      subst h2
      exact ⟨"12", rfl⟩)

theorem c10_witness :
    ∃ results : List Message,
      (process_tool_calls sampleReg sampleParse idlessBatch [] 7).messages
          = [] ++ results ∧
      (results.getD 0 default).tool_call_id = some ("call_" ++ toString 7) ∧
      (results.getD 1 default).tool_call_id = some ("call_" ++ toString 7) ∧
      (results.getD 0 default).tool_call_id = (results.getD 1 default).tool_call_id :=
  c10_idless_share_cycle_id sampleReg sampleParse idlessBatch []
    (process_tool_calls sampleReg sampleParse idlessBatch [] 7).messages 7 0 1 rfl
    (by decide) (by decide) rfl rfl

theorem chat_loop_h_frame (reg : Registry) (parse : ArgParser) (oracle : Oracle) :
    ∀ (rem : Nat) (h : Heap) (workRef iter r : Nat) (d : List Message),
      r ≠ workRef →
      ((chat_loop_h reg parse oracle h workRef iter rem).2).getD r d = h.getD r d := by
  intro rem
  induction rem with
  | zero => intro h workRef iter r d hne; rfl
  | succ rem ih =>
      intro h workRef iter r d hne
      rcases ho : oracle iter with _ | m
      · simp only [chat_loop_h, ho]
      · rcases hc : m.content with _ | c
        · simp only [chat_loop_h, ho, hc]
          by_cases htc : m.tool_calls = []
          · rw [if_pos htc]
            exact getD_set_ne _ _ _ _ _ (fun he => hne he.symm)
          · rw [if_neg htc]
            rcases hpc : process_tool_calls reg parse m.tool_calls
                ((h.set workRef (h.getD workRef [] ++ [m])).getD workRef []) iter
              with ⟨ms, raised⟩
            cases raised with
            | some e =>
                simp only
                rw [getD_set_ne _ _ _ _ _ (fun he => hne he.symm),
                  getD_set_ne _ _ _ _ _ (fun he => hne he.symm)]
            | none =>
                rw [ih]
                · rw [getD_set_ne _ _ _ _ _ (fun he => hne he.symm),
                    getD_set_ne _ _ _ _ _ (fun he => hne he.symm)]
                · exact hne
        · simp only [chat_loop_h, ho, hc]
          by_cases htc : m.tool_calls = []
          · rw [if_pos htc]
            by_cases hce : c = ""
            · rw [if_pos hce]
              exact getD_set_ne _ _ _ _ _ (fun he => hne he.symm)
            · rw [if_neg hce]
              exact getD_set_ne _ _ _ _ _ (fun he => hne he.symm)
          · rw [if_neg htc]
            rcases hpc : process_tool_calls reg parse m.tool_calls
                ((h.set workRef (h.getD workRef [] ++ [m])).getD workRef []) iter
              with ⟨ms, raised⟩
            cases raised with
            | some e =>
                simp only
                rw [getD_set_ne _ _ _ _ _ (fun he => hne he.symm),
                  getD_set_ne _ _ _ _ _ (fun he => hne he.symm)]
            | none =>
                rw [ih]
                · rw [getD_set_ne _ _ _ _ _ (fun he => hne he.symm),
                    getD_set_ne _ _ _ _ _ (fun he => hne he.symm)]
                · exact hne

/-- **C9.**  A `chat` run — whatever its registry, so in particular one
whose tools include the delegation tool — never changes any message list
the caller holds: the run works on a fresh copy (`messages.copy()`), and
every list the store contained before the call, in particular a parent
conversation of length K, is unchanged (same length, same content) when
`chat` returns or raises. -/
theorem c9_caller_messages_unchanged (reg : Registry) (parse : ArgParser)
    (oracle : Oracle) (h : Heap) (callerRef : Nat) (maxIter : Nat)
    (r : Nat) (d : List Message) (hr : r < h.length) :
    ((chat_h reg parse oracle h callerRef maxIter).2).getD r d = h.getD r d := by
  unfold chat_h
  rw [chat_loop_h_frame reg parse oracle maxIter _ _ 0 r d (Nat.ne_of_lt hr)]
  exact getD_append_left h _ r d hr

theorem c9_witness :
    (0 : Nat) < ([parentConversation] : Heap).length
    ∧ ((chat_h boomReg sampleParse boomOracle [parentConversation] 0 3).2).getD 0 []
        = ([parentConversation] : Heap).getD 0 [] :=
  ⟨by decide,
   c9_caller_messages_unchanged boomReg sampleParse boomOracle [parentConversation]
     0 3 0 [] (by decide)⟩

/-- **C1 (code bug).**  With a registered agent type, `execute` raises
`TypeError` — `ChatClient` is constructed with the unexpected keyword
`api_key`, outside the `try` block — so the exception propagates to the
delegating orchestrator instead of the claimed typed `success` result;
only the unknown-agent branch returns the typed `success=False` value.
This contradicts the documented delegation contract (always return,
never propagate). -/
theorem c1_delegation_raises_typeerror :
    subtask_execute demoAgents sampleReg sampleParse successOracle
        "math_agent" "计算 2+2"
      = Except.error "TypeError: ChatClient.__init__ got an unexpected keyword argument"
    ∧ delegate_task demoAgents sampleReg sampleParse successOracle
        "math_agent" "计算 2+2"
      = Except.error "TypeError: ChatClient.__init__ got an unexpected keyword argument"
    ∧ subtask_execute demoAgents sampleReg sampleParse successOracle
        "poetry_agent" "写一首诗"
      = Except.ok { success := false
                    error := some "未知的代理类型: poetry_agent。可用的代理: math_agent"
                    agent_type := "poetry_agent"
                    task_description := "写一首诗" } :=
  ⟨rfl, rfl, rfl⟩

theorem mem_resolved_foldl (groups : GroupTable) :
    ∀ (gns : List String) (acc : Finset String) (x : String),
      (x ∈ gns.foldl
        (fun acc g =>
          match groups.lookup g with
          | some ts => acc ∪ ts.toFinset
          | none => acc) acc)
      ↔ x ∈ acc ∨ ∃ g, g ∈ gns ∧ ∃ ts, groups.lookup g = some ts ∧ x ∈ ts := by
  intro gns
  induction gns with
  | nil => intro acc x; simp
  | cons g rest ih =>
      intro acc x
      rw [List.foldl_cons]
      rcases hg : groups.lookup g with _ | ts
      · simp only [hg]
        rw [ih]
        simp only [List.mem_cons]
        constructor
        · rintro (h1 | ⟨g1, hg1, hP⟩)
          · exact Or.inl h1
          · exact Or.inr ⟨g1, Or.inr hg1, hP⟩
        · rintro (h1 | ⟨g1, (rfl | hg1), ts1, hts1, hx1⟩)
          · exact Or.inl h1
          · rw [hg] at hts1; exact absurd hts1 (by simp)
          · exact Or.inr ⟨g1, hg1, ts1, hts1, hx1⟩
      · simp only [hg]
        rw [ih]
        simp only [Finset.mem_union, List.mem_toFinset, List.mem_cons]
        constructor
        · rintro ((h1 | h1) | ⟨g1, hg1, hP⟩)
          · exact Or.inl h1
          · exact Or.inr ⟨g, Or.inl rfl, ts, hg, h1⟩
          · exact Or.inr ⟨g1, Or.inr hg1, hP⟩
        · rintro (h1 | ⟨g1, (rfl | hg1), ts1, hts1, hx1⟩)
          · exact Or.inl (Or.inl h1)
          · rw [hg] at hts1
            injection hts1 with he
            subst he
            exact Or.inl (Or.inr hx1)
          · exact Or.inr ⟨g1, hg1, ts1, hts1, hx1⟩

theorem mem_resolved_tool_names (groups : GroupTable) (gns : List String)
    (x : String) :
    x ∈ resolved_tool_names groups gns
      ↔ ∃ g, g ∈ gns ∧ ∃ ts, groups.lookup g = some ts ∧ x ∈ ts := by
  rw [resolved_tool_names, mem_resolved_foldl]
  simp

theorem mem_get_tools_by_groups (groups : GroupTable) (registry : ToolsRegistry)
    (gns : List String) (d : ToolDefinition) :
    d ∈ get_tools_by_groups groups registry gns
      ↔ ∃ n, (∃ g, g ∈ gns ∧ ∃ ts, groups.lookup g = some ts ∧ n ∈ ts)
          ∧ registry.lookup n = some d := by
  rw [get_tools_by_groups]
  simp only [Finset.mem_biUnion, Option.mem_toFinset, Option.mem_def,
    mem_resolved_tool_names]

/-- **C6.**  Group resolution is a set union: (i) permuting the group
names leaves the resolved definition set unchanged; (ii) repeating a
group name adds nothing; (iii) resolving a doubled list equals
resolving it once (idempotence of re-adding the same groups); (iv) a
group member with no registered tool contributes nothing (not an
error); being a set, the result never holds duplicate definitions. -/
theorem c6_group_resolution :
    (∀ (groups : GroupTable) (registry : ToolsRegistry) (g1 g2 : List String),
        g1.Perm g2 →
        get_tools_by_groups groups registry g1 = get_tools_by_groups groups registry g2)
    ∧ (∀ (groups : GroupTable) (registry : ToolsRegistry) (g : String)
          (gns : List String),
        get_tools_by_groups groups registry (g :: g :: gns)
          = get_tools_by_groups groups registry (g :: gns))
    ∧ (∀ (groups : GroupTable) (registry : ToolsRegistry) (gns : List String),
        get_tools_by_groups groups registry (gns ++ gns)
          = get_tools_by_groups groups registry gns)
    ∧ (∀ (rest : GroupTable) (registry : ToolsRegistry) (gname n : String)
          (members : List String) (gns : List String),
        registry.lookup n = none →
        get_tools_by_groups ((gname, n :: members) :: rest) registry gns
          = get_tools_by_groups ((gname, members) :: rest) registry gns) := by
  refine ⟨?_, ?_, ?_, ?_⟩
  · intro groups registry g1 g2 hperm
    apply Finset.ext
    intro d
    rw [mem_get_tools_by_groups, mem_get_tools_by_groups]
    constructor
    · rintro ⟨n, ⟨g, hgmem, hrest⟩, hl⟩
      exact ⟨n, ⟨g, hperm.mem_iff.mp hgmem, hrest⟩, hl⟩
    · rintro ⟨n, ⟨g, hgmem, hrest⟩, hl⟩
      exact ⟨n, ⟨g, hperm.mem_iff.mpr hgmem, hrest⟩, hl⟩
  · intro groups registry g gns
    apply Finset.ext
    intro d
    rw [mem_get_tools_by_groups, mem_get_tools_by_groups]
    constructor
    · rintro ⟨n, ⟨g1, hgmem, hrest⟩, hl⟩
      refine ⟨n, ⟨g1, ?_, hrest⟩, hl⟩
      simp only [List.mem_cons] at hgmem ⊢
      tauto
    · rintro ⟨n, ⟨g1, hgmem, hrest⟩, hl⟩
      refine ⟨n, ⟨g1, ?_, hrest⟩, hl⟩
      simp only [List.mem_cons] at hgmem ⊢
      tauto
  · intro groups registry gns
    apply Finset.ext
    intro d
    rw [mem_get_tools_by_groups, mem_get_tools_by_groups]
    constructor
    · rintro ⟨n, ⟨g, hgmem, hrest⟩, hl⟩
      refine ⟨n, ⟨g, ?_, hrest⟩, hl⟩
      rcases List.mem_append.mp hgmem with h1 | h1 <;> exact h1
    · rintro ⟨n, ⟨g, hgmem, hrest⟩, hl⟩
      exact ⟨n, ⟨g, List.mem_append.mpr (Or.inl hgmem), hrest⟩, hl⟩
  · intro rest registry gname n members gns hn
    apply Finset.ext
    intro d
    rw [mem_get_tools_by_groups, mem_get_tools_by_groups]
    constructor
    · rintro ⟨x, ⟨g, hgmem, ts, hts, hx⟩, hl⟩
      rw [List.lookup] at hts
      by_cases hge : (g == gname) = true
      · rw [hge] at hts
        injection hts with he
        subst he
        rcases List.mem_cons.mp hx with h1 | h1
        · subst h1
          rw [hn] at hl
          exact absurd hl (by simp)
        · refine ⟨x, ⟨g, hgmem, members, ?_, h1⟩, hl⟩
          rw [List.lookup, hge]
      · rw [Bool.not_eq_true] at hge
        rw [hge] at hts
        refine ⟨x, ⟨g, hgmem, ts, ?_, hx⟩, hl⟩
        rw [List.lookup, hge]
        exact hts
    · rintro ⟨x, ⟨g, hgmem, ts, hts, hx⟩, hl⟩
      rw [List.lookup] at hts
      by_cases hge : (g == gname) = true
      · rw [hge] at hts
        injection hts with he
        subst he
        refine ⟨x, ⟨g, hgmem, n :: members, ?_, List.mem_cons_of_mem _ hx⟩, hl⟩
        rw [List.lookup, hge]
      · rw [Bool.not_eq_true] at hge
        rw [hge] at hts
        refine ⟨x, ⟨g, hgmem, ts, ?_, hx⟩, hl⟩
        rw [List.lookup, hge]
        exact hts

theorem extract_param_go_true (param_name : String) :
    ∀ ls : List String,
      extract_param_go param_name ls true =
        match ((sectionScan ls).filterMap (specMatchLine param_name)).head? with
        | some d => d
        | none => param_name ++ " 参数" := by
  intro ls
  induction ls with
  | nil => rfl
  | cons line rest ih =>
      by_cases hp : isParamsLabel line.trim
      · simp [extract_param_go, sectionScan, hp, ih]
      · have hp' : isParamsLabel line.trim = false := by
          revert hp; cases isParamsLabel line.trim <;> simp
        by_cases hr : isReturnsLabel line.trim
        · simp [extract_param_go, sectionScan, hp', hr]
        · have hr' : isReturnsLabel line.trim = false := by
            revert hr; cases isReturnsLabel line.trim <;> simp
          by_cases hcont : strContains line.trim param_name
          · rcases hsplit : splitColonOnce line.trim.data with _ | ⟨pre, post⟩
            · simp [extract_param_go, sectionScan, specMatchLine, hp', hr', hcont,
                hsplit, ih]
            · by_cases hpre : charsContains param_name.data pre
              · simp [extract_param_go, sectionScan, specMatchLine, hp', hr', hcont,
                  hsplit, hpre]
              · have hpre' : charsContains param_name.data pre = false := by
                  revert hpre; cases charsContains param_name.data pre <;> simp
                simp [extract_param_go, sectionScan, specMatchLine, hp', hr', hcont,
                  hsplit, hpre', ih]
          · have hcont' : strContains line.trim param_name = false := by
              revert hcont; cases strContains line.trim param_name <;> simp
            simp [extract_param_go, sectionScan, specMatchLine, hp', hr', hcont', ih]

theorem extract_param_go_false (param_name : String) :
    ∀ ls : List String,
      extract_param_go param_name ls false =
        match ls.dropWhile (fun l => !(isParamsLabel l.trim)) with
        | [] => param_name ++ " 参数"
        | _ :: rest => extract_param_go param_name rest true := by
  intro ls
  induction ls with
  | nil => rfl
  | cons line rest ih =>
      by_cases hp : isParamsLabel line.trim
      · simp [extract_param_go, List.dropWhile_cons, hp]
      · have hp' : isParamsLabel line.trim = false := by
          revert hp; cases isParamsLabel line.trim <;> simp
        simp [extract_param_go, List.dropWhile_cons, hp', ih]

/-- **C7 (amended).**  For every docstring and parameter name the
heuristic extractor agrees with the declarative description: inside the
parameters section, the first line containing the parameter name before
a colon yields the trimmed remainder after the colon; a non-empty
docstring with no matching line yields the default
`param_name + " 参数"`; an absent or empty docstring yields the EMPTY
string (not the default — this is where the original claim fails, see
the counterexample). -/
theorem c7_param_description_spec (docstring : Option String) (param_name : String) :
    extract_param_description docstring param_name
      = spec_param_description docstring param_name := by
  rcases docstring with _ | doc
  · rfl
  · simp only [extract_param_description, spec_param_description]
    by_cases hd : doc = ""
    · rw [if_pos hd, if_pos hd]
    · rw [if_neg hd, if_neg hd, extract_param_go_false, specParamSection]
      rcases hdrop : (doc.splitOn "\n").dropWhile (fun l => !(isParamsLabel l.trim))
        with _ | ⟨l0, rest⟩
      · rw [hdrop]; rfl
      · rw [hdrop]
        simp only [List.drop_succ_cons, List.drop_zero]
        rw [extract_param_go_true]

/-- **C7 (counterexample).**  A callable with no documentation: the
description is the empty string, not the claimed
`param_name + " 参数"` default. -/
theorem c7_counterexample :
    extract_param_description none "min_value" = ""
    ∧ extract_param_description (some "") "min_value" = ""
    ∧ extract_param_description none "min_value" ≠ "min_value" ++ " 参数" :=
  ⟨rfl, rfl, by decide⟩

theorem c6_witness :
    get_tools_by_groups demoGroups demoRegistry ["math", "time"]
      = get_tools_by_groups demoGroups demoRegistry ["time", "math"]
    ∧ get_tools_by_groups demoGroups demoRegistry ["math", "math", "time"]
      = get_tools_by_groups demoGroups demoRegistry ["math", "time"]
    ∧ get_tools_by_groups (("math", "ghost_tool" :: ["calculate_def"]) :: [("time", ["time_def", "calculate_def"])]) demoRegistry ["math", "time"]
      = get_tools_by_groups (("math", ["calculate_def"]) :: [("time", ["time_def", "calculate_def"])]) demoRegistry ["math", "time"] :=
  ⟨c6_group_resolution.1 demoGroups demoRegistry _ _ (by decide),
   c6_group_resolution.2.1 demoGroups demoRegistry "math" ["time"],
   c6_group_resolution.2.2.2 [("time", ["time_def", "calculate_def"])] demoRegistry
     "math" "ghost_tool" ["calculate_def"] ["math", "time"] rfl⟩

end GptOss
